import Mathlib

/-!
Verification of the text-to-ClickHouse-SQL converter (`text_to_sql.py`).

Python strings are modelled as `List Char`.  Python's `str.upper` /
`str.lower` / `str.strip` are modelled with `Char.toUpper` / `Char.toLower`
and the six ASCII whitespace characters, which agree with Python on the
ASCII inputs the program manipulates.
-/

namespace TextToSql

/-- The six characters Python's `str.strip()` / regex `\s` treat as
whitespace in the ASCII range. -/
def isPySpace (c : Char) : Bool :=
  c = ' ' || c = '\t' || c = '\n' || c = '\r' || c = '\x0b' || c = '\x0c'

/-- Python `str.upper()` (ASCII). -/
def pyUpper (l : List Char) : List Char := l.map Char.toUpper

/-- Python `str.lower()` (ASCII). -/
def pyLower (l : List Char) : List Char := l.map Char.toLower

/-- Python `str.lstrip()`. -/
def lstrip (l : List Char) : List Char := l.dropWhile isPySpace

/-- Python `str.rstrip()` (drop whitespace from the tail). -/
def rstrip (l : List Char) : List Char := l.rdropWhile isPySpace

/-- Python `str.strip()`. -/
def pyStrip (l : List Char) : List Char := rstrip (lstrip l)

/-- Python `str.split(sep)` for a single-character separator. -/
def splitChar (sep : Char) : List Char → List (List Char)
  | [] => [[]]
  | c :: cs =>
    if c = sep then [] :: splitChar sep cs
    else
      match splitChar sep cs with
      | [] => [[c]]
      | l :: ls => (c :: l) :: ls

/-- `output.split('\n')`. -/
def splitNl (l : List Char) : List (List Char) := splitChar '\n' l

/-- `'\n'.join(lines)`. -/
def joinNl : List (List Char) → List Char
  | [] => []
  | [l] => l
  | l :: ls => l ++ '\n' :: joinNl ls

/-- Decimal digits of a positive number (fuel-driven so that it reduces
definitionally). -/
def natDigitsAux : Nat → Nat → List Char
  | 0, _ => []
  | _ + 1, 0 => []
  | fuel + 1, n + 1 =>
    natDigitsAux fuel ((n + 1) / 10) ++ [Char.ofNat ('0'.toNat + (n + 1) % 10)]

/-- Python `str(n)` for a natural number. -/
def natToStr (n : Nat) : List Char :=
  if n = 0 then ['0'] else natDigitsAux (n + 1) n

/-- Python `str(i)` for an integer. -/
def intToStr (i : Int) : List Char :=
  if i < 0 then '-' :: natToStr i.natAbs else natToStr i.natAbs

/-- Auxiliary scanner for Python `str.split(sep)` with a multi-character
separator: `skip` counts separator characters still to be consumed after a
match, `acc` holds the current field reversed. -/
def splitSeqAux (sep : List Char) : Nat → List Char → List Char → List (List Char)
  | _, [], acc => [acc.reverse]
  | 0, c :: cs, acc =>
    if sep ≠ [] ∧ sep.isPrefixOf (c :: cs) then
      acc.reverse :: splitSeqAux sep (sep.length - 1) cs []
    else
      splitSeqAux sep 0 cs (c :: acc)
  | k + 1, _ :: cs, acc => splitSeqAux sep k cs acc

/-- Python `s.split(sep)` for a non-empty separator string. -/
def pySplitSeq (sep l : List Char) : List (List Char) := splitSeqAux sep 0 l []

/-- Python `s.replace(old, new)` (for non-empty `old`), via the identity
`s.replace(old, new) == new.join(s.split(old))`. -/
def pyReplace (old new l : List Char) : List Char :=
  List.intercalate new (pySplitSeq old l)

/-! ### The output extractor (`_extract_sql_from_output`) -/

/-- The statement-start keywords of the regex
`^\s*(SELECT|INSERT|UPDATE|DELETE|WITH|CREATE|ALTER|DROP|SHOW|DESCRIBE|EXPLAIN)`. -/
def sqlKeywords : List (List Char) :=
  ["SELECT".toList, "INSERT".toList, "UPDATE".toList, "DELETE".toList,
   "WITH".toList, "CREATE".toList, "ALTER".toList, "DROP".toList,
   "SHOW".toList, "DESCRIBE".toList, "EXPLAIN".toList]

/-- `re.match(r'^\s*(SELECT|…)', line, re.IGNORECASE)` is not `None`:
after leading whitespace the line starts, case-insensitively, with one of
the keywords. -/
def sqlStartMatch (line : List Char) : Bool :=
  sqlKeywords.any (fun kw => kw.isPrefixOf (pyUpper (line.dropWhile isPySpace)))

/-- Python's `sub in s` substring test. -/
def containsSeq (sub l : List Char) : Bool := decide (sub <:+: l)

/-- The commentary / progress-noise test of the skipping loop. -/
def isCommentary (line : List Char) : Bool :=
  ("Starting AI".toList).isPrefixOf line ||
  ("──".toList).isPrefixOf line ||
  ("🔍".toList).isPrefixOf line ||
  ("✨".toList).isPrefixOf line ||
  ("➜".toList).isPrefixOf line ||
  containsSeq ("generated successfully".toList) (pyLower line) ||
  containsSeq ("list_databases".toList) (pyLower line) ||
  containsSeq ("list_tables".toList) (pyLower line) ||
  containsSeq ("get_schema".toList) (pyLower line)

/-- Word characters for the regex `\b` boundary (ASCII `\w`). -/
def isWordChar (c : Char) : Bool := c.isAlphanum || c = '_'

/-- The keyword (uppercase) matches case-insensitively at the head of
`rest`, with `\b` boundaries: the previous character `prev` (if any) and
the character following the match (if any) are not word characters. -/
def wordMatchAt (kw : List Char) (prev : Option Char) (rest : List Char) : Bool :=
  (match prev with | none => true | some c => !isWordChar c) &&
  kw.isPrefixOf (pyUpper rest) &&
  (match rest.drop kw.length with | [] => true | c :: _ => !isWordChar c)

/-- Scan `rest` for a `\b`-bounded, case-insensitive occurrence of `kw`. -/
def wordSearch (kw : List Char) : Option Char → List Char → Bool
  | prev, [] => wordMatchAt kw prev []
  | prev, c :: cs => wordMatchAt kw prev (c :: cs) || wordSearch kw (some c) cs

/-- `re.search(r'\bKW\b', text, re.IGNORECASE)` is not `None`. -/
def hasWordOccurrence (kw text : List Char) : Bool := wordSearch kw none text

/-- The fallback keywords of
`re.search(r'\b(SELECT|FROM|WHERE|GROUP BY|ORDER BY|LIMIT|DESCRIBE|SHOW)\b', …)`. -/
def fallbackKeywords : List (List Char) :=
  ["SELECT".toList, "FROM".toList, "WHERE".toList, "GROUP BY".toList,
   "ORDER BY".toList, "LIMIT".toList, "DESCRIBE".toList, "SHOW".toList]

/-- The fallback regex search over the whole trimmed output. -/
def fallbackMatch (text : List Char) : Bool :=
  fallbackKeywords.any (fun kw => hasWordOccurrence kw text)

/-- The 50-character box-drawing separator literal of the fallback path. -/
def sep50 : List Char := List.replicate 50 '─'

/-- The mutable state of the line-scanning loop:
`sql_lines`, `in_sql`, `skip_commentary`. -/
structure ExtractState where
  sqlLines : List (List Char)
  inSql : Bool
  skipCommentary : Bool
deriving DecidableEq, Repr

/-- `sql_lines = []`, `in_sql = False`, `skip_commentary = True`. -/
def initState : ExtractState := ⟨[], false, true⟩

/-- One iteration of the `for line in lines` loop. -/
def extractStep (st : ExtractState) (line : List Char) : ExtractState :=
  if pyStrip line = [] ∧ st.sqlLines = [] then st
  else if st.skipCommentary = true ∧ isCommentary line = true then st
  else
    let st1 := if sqlStartMatch line = true then
      { st with inSql := true, skipCommentary := false } else st
    if st1.inSql = true then { st1 with sqlLines := st1.sqlLines ++ [line] } else st1

/-- `while sql_lines and not sql_lines[-1].strip(): sql_lines.pop()`. -/
def popTrailingBlanks (ls : List (List Char)) : List (List Char) :=
  (ls.reverse.dropWhile (fun l => pyStrip l = [])).reverse

/-- The collected SQL lines of the structured path, trailing blanks removed. -/
def structuredLines (output : List Char) : List (List Char) :=
  popTrailingBlanks ((splitNl output).foldl extractStep initState).sqlLines

/-- The keyword-pattern fallback of `_extract_sql_from_output` (the part
after the structured scan found nothing). -/
def fallbackExtract (output : List Char) : Option (List Char) :=
  let oc := pyStrip output
  if fallbackMatch oc = true then
    if containsSeq sep50 oc = true then
      let parts := pySplitSeq sep50 oc
      if parts.length > 1 then
        let ps := pyStrip (parts.getLastD [])
        if ps ≠ [] then some ps else some oc
      else some oc
    else some oc
  else none

/-- `_extract_sql_from_output`: `none` models Python's `None`. -/
def extract_sql_from_output (output : List Char) : Option (List Char) :=
  if output = [] ∨ pyStrip output = [] then none
  else if structuredLines output ≠ [] then
    some (pyStrip (joinNl (structuredLines output)))
  else fallbackExtract output

/-! ### Transport selection and the `clickhouse-client` command builder -/

/-- The two transports of the spec's `TransportMode` enumeration. -/
inductive TransportMode where
  | HTTP : TransportMode
  | NATIVE : TransportMode
deriving DecidableEq, Repr

/-- `self.use_http = self.ch_port in (8443, 443, 8123)` (line 62). -/
def use_http (port : Int) : Bool := port = 8443 || port = 443 || port = 8123

/-- Modelled from the spec: `select_transport(port) -> TransportMode`,
`HTTP` for `{443, 8123, 8443}`, `NATIVE` otherwise (the spec's contract
for the transport decision stored in `self.use_http`). -/
def select_transport (port : Int) : TransportMode :=
  if port = 443 ∨ port = 8123 ∨ port = 8443 then .HTTP else .NATIVE

/-- The connection-relevant fields of `ClickHouseSQLGenerator`.  Optional
string fields use `[]` for both Python `None` and `''` (the code only
tests their truthiness and passes the value through).
`nativePortEnv` models `int(os.getenv('CLICKHOUSE_NATIVE_PORT', '9440'))`. -/
structure CHConfig where
  chHost : List Char
  chPort : Int
  chUser : List Char
  chPassword : List Char
  chDatabase : List Char
  configFile : List Char
  nativePortEnv : Option Int
deriving DecidableEq, Repr

/-- `if self.ch_host: cmd.extend(['--host', self.ch_host])`. -/
def hostArgs (cfg : CHConfig) : List (List Char) :=
  if cfg.chHost ≠ [] then ["--host".toList, cfg.chHost] else []

/-- The `--port` flag: the native-port fallback when `use_http`, else the
configured port when it is truthy (non-zero). -/
def portArgs (cfg : CHConfig) : List (List Char) :=
  if use_http cfg.chPort = true then
    ["--port".toList, intToStr (cfg.nativePortEnv.getD 9440)]
  else if cfg.chPort ≠ 0 then ["--port".toList, intToStr cfg.chPort]
  else []

/-- `if self.ch_user: cmd.extend(['--user', self.ch_user])`. -/
def userArgs (cfg : CHConfig) : List (List Char) :=
  if cfg.chUser ≠ [] then ["--user".toList, cfg.chUser] else []

/-- `if self.ch_password: cmd.extend(['--password', self.ch_password])`. -/
def passwordArgs (cfg : CHConfig) : List (List Char) :=
  if cfg.chPassword ≠ [] then ["--password".toList, cfg.chPassword] else []

/-- `if self.ch_database: cmd.extend(['--database', self.ch_database])`. -/
def databaseArgs (cfg : CHConfig) : List (List Char) :=
  if cfg.chDatabase ≠ [] then ["--database".toList, cfg.chDatabase] else []

/-- `if self.config_file: cmd.extend(['--config-file', self.config_file])`. -/
def configArgs (cfg : CHConfig) : List (List Char) :=
  if cfg.configFile ≠ [] then ["--config-file".toList, cfg.configFile] else []

/-- `if extra_args: cmd.extend(extra_args)` (`None` and `[]` are falsy). -/
def extraArgsList (ea : Option (List (List Char))) : List (List Char) :=
  match ea with
  | none => []
  | some l => l

/-- `if not extra_args or '--format' not in extra_args:
cmd.extend(['--format', 'TabSeparated'])`. -/
def formatArgs (ea : Option (List (List Char))) : List (List Char) :=
  if (match ea with | none => true | some l => decide (l = [])) ||
     !(extraArgsList ea).contains "--format".toList then
    ["--format".toList, "TabSeparated".toList]
  else []

/-- `_build_clickhouse_command(query, extra_args)`: the ordered argument
list handed to `subprocess.run`. -/
def build_clickhouse_command (cfg : CHConfig) (query : List Char)
    (ea : Option (List (List Char))) : List (List Char) :=
  ["clickhouse-client".toList] ++ hostArgs cfg ++ portArgs cfg ++
  userArgs cfg ++ passwordArgs cfg ++ databaseArgs cfg ++
  ["--secure".toList] ++ configArgs cfg ++ extraArgsList ea ++
  ["--query".toList, query] ++ formatArgs ea

/-- `cmd[cmd.index(x) + 1]` when `x` occurs (the element right after the
first occurrence of `x`), mirroring the downstream indexing of the tests. -/
def valueAfterFirst (x : List Char) : List (List Char) → Option (List Char)
  | [] => none
  | a :: rest => if a = x then rest.head? else valueAfterFirst x rest

/-! ### `execute_query`'s LIMIT injection -/

/-- The statement actually dispatched by `execute_query(sql_query, limit)`
(lines 496-498): `" LIMIT {limit}"` is appended when the uppercased text
has no `LIMIT` substring and the stripped uppercased text starts with
`SELECT`. -/
def execute_query_sql (sql : List Char) (limit : Int) : List Char :=
  if containsSeq "LIMIT".toList (pyUpper sql) = false ∧
     "SELECT".toList.isPrefixOf (pyUpper (pyStrip sql)) = true then
    sql ++ " LIMIT ".toList ++ intToStr limit
  else sql

/-! ### `format_results` -/

/-- Column width `i`: the running maximum of `len(str(val))` over the
cells in position `i < num_cols` of every row. -/
def colWidth (rows : List (List (List Char))) (i : Nat) : Nat :=
  rows.foldl (fun w r => match r.get? i with | some v => max w v.length | none => w) 0

/-- Python `str.ljust`. -/
def ljust (l : List Char) (w : Nat) : List Char :=
  l ++ List.replicate (w - l.length) ' '

/-- One formatted row: cells beyond `num_cols` dropped, each cell
left-justified to its column width, joined with `" | "`. -/
def formatRow (widths : List Nat) (numCols : Nat) (r : List (List Char)) : List Char :=
  List.intercalate " | ".toList
    ((r.take numCols).mapIdx (fun i v => ljust v (widths.getD i 0)))

/-- `format_results(output)` (lines 535-600).  The `try/except` wrapper is
omitted: no statement of the body can raise (`lines` and `rows` are never
empty lists, and all indexing is guarded). -/
def format_results (output : List Char) : List Char :=
  if output = [] then "Нет результатов".toList
  else
    let lines := splitNl (pyStrip output)
    if lines = [] then "Запрос выполнен успешно. Результатов: 0".toList
    else
      let rows := lines.map (splitChar '\t')
      if rows = [] then "Нет результатов".toList
      else
        let numCols := (rows.headD []).length
        let widths := (List.range numCols).map (colWidth rows)
        let formattedRows := rows.map (formatRow widths numCols)
        let separator :=
          List.intercalate "-+-".toList (widths.map (fun w => List.replicate w '-'))
        if formattedRows.length > 1 then
          joinNl ([[]] ++ [formattedRows.headD []] ++ [separator] ++
            formattedRows.tail ++ [[]] ++
            ["Всего строк: ".toList ++ natToStr (rows.length - 1)])
        else
          joinNl ([[]] ++ formattedRows ++ [[]] ++
            ["Всего строк: ".toList ++ natToStr rows.length])

/-! ### `__init__`: host normalisation, AI-provider selection -/

/-- Line 30:
`os.getenv('CLICKHOUSE_HOST', '').replace('https://', '').replace('http://', '')`. -/
def normalize_host (h : List Char) : List Char :=
  pyReplace "http://".toList [] (pyReplace "https://".toList [] h)

/-- The three AI providers, in the priority order of the `__init__`
branches. -/
inductive AIProvider where
  | openrouter : AIProvider
  | anthropic : AIProvider
  | openai : AIProvider
deriving DecidableEq, Repr

/-- The environment variables read by `__init__` that decide whether
construction succeeds.  `none` models an unset variable. -/
structure Env where
  clickhousePortEnv : Option (List Char)
  openrouterKey : Option (List Char)
  anthropicKey : Option (List Char)
  openaiKey : Option (List Char)
deriving DecidableEq, Repr

/-- Python truthiness of `os.getenv(...)`: unset (`None`) and the empty
string are falsy. -/
def keyTruthy : Option (List Char) → Bool
  | none => false
  | some s => !s.isEmpty

/-- Digit run of Python `int()`: digits with single underscores allowed
between digits (PEP 515). -/
def digitsOkAux : List Char → Bool
  | [] => true
  | '_' :: c :: cs => c.isDigit && digitsOkAux cs
  | c :: cs => c.isDigit && digitsOkAux cs

/-- A non-empty digit run starting with a digit. -/
def digitsOk : List Char → Bool
  | [] => false
  | c :: cs => c.isDigit && digitsOkAux cs

/-- Decimal value of a digit run (underscores skipped). -/
def digitsVal (l : List Char) : Nat :=
  (l.filter (fun c => c ≠ '_')).foldl (fun n c => 10 * n + (c.toNat - '0'.toNat)) 0

/-- Python `int(s)` for ASCII decimal strings: surrounding whitespace and
one optional sign, then digits; `none` models the `ValueError`. -/
def pyIntParse (s : List Char) : Option Int :=
  match pyStrip s with
  | '+' :: ds => if digitsOk ds then some (digitsVal ds) else none
  | '-' :: ds => if digitsOk ds then some (-(digitsVal ds : Int)) else none
  | ds => if digitsOk ds then some (digitsVal ds) else none

instance {ε α : Type} [DecidableEq ε] [DecidableEq α] : DecidableEq (Except ε α) :=
  fun a b =>
    match a, b with
    | .error e₁, .error e₂ =>
      if h : e₁ = e₂ then isTrue (by rw [h]) else isFalse (by simp [h])
    | .ok v₁, .ok v₂ =>
      if h : v₁ = v₂ then isTrue (by rw [h]) else isFalse (by simp [h])
    | .error _, .ok _ => isFalse (by simp)
    | .ok _, .error _ => isFalse (by simp)

/-- The errors `__init__` can raise before finishing: `int()` failing on
`CLICKHOUSE_PORT` (line 31) and the missing-API-key `ValueError`
(line 55). -/
inductive InitError where
  | invalidPort : InitError
  | noApiKey : InitError
deriving DecidableEq, Repr

/-- `__init__` as a function of the environment: the parsed port and the
chosen provider with its key, or the error raised.  Port parsing (line 31)
runs before the provider branches (lines 44-55). -/
def init_generator (e : Env) : Except InitError (Int × AIProvider × List Char) :=
  match pyIntParse (e.clickhousePortEnv.getD "8443".toList) with
  | none => .error .invalidPort
  | some port =>
    if keyTruthy e.openrouterKey = true then
      .ok (port, .openrouter, e.openrouterKey.getD [])
    else if keyTruthy e.anthropicKey = true then
      .ok (port, .anthropic, e.anthropicKey.getD [])
    else if keyTruthy e.openaiKey = true then
      .ok (port, .openai, e.openaiKey.getD [])
    else .error .noApiKey

/-! ## Lemmas about the whitespace-stripping helpers -/

theorem lstrip_idem (l : List Char) : lstrip (lstrip l) = lstrip l :=
  List.dropWhile_idempotent isPySpace l

theorem rstrip_idem (l : List Char) : rstrip (rstrip l) = rstrip l :=
  List.rdropWhile_idempotent isPySpace l

theorem lstrip_eq_nil_iff {l : List Char} :
    lstrip l = [] ↔ ∀ c ∈ l, isPySpace c = true := by
  simp [lstrip, List.dropWhile_eq_nil_iff]

theorem rstrip_eq_nil_iff {l : List Char} :
    rstrip l = [] ↔ ∀ c ∈ l, isPySpace c = true := by
  simp [rstrip, List.rdropWhile_eq_nil_iff]

theorem head?_lstrip_not {l : List Char} {c : Char} (h : (lstrip l).head? = some c) :
    isPySpace c = false := by
  have hne : lstrip l ≠ [] := by intro hn; rw [hn] at h; exact Option.noConfusion h
  have hhead := List.head_dropWhile_not isPySpace l hne
  rw [List.head?_eq_head hne, Option.some.injEq] at h
  rw [← h]
  exact hhead

theorem getLast?_rstrip_not {l : List Char} {c : Char}
    (h : (rstrip l).getLast? = some c) : isPySpace c = false := by
  have hne : rstrip l ≠ [] := by intro hn; rw [hn] at h; exact Option.noConfusion h
  have hlast : ¬isPySpace ((rstrip l).getLast hne) = true :=
    List.rdropWhile_last_not isPySpace l hne
  rw [List.getLast?_eq_getLast _ hne, Option.some.injEq] at h
  rw [h] at hlast
  simpa using hlast

theorem lstrip_eq_self_of_head {l : List Char} {c : Char}
    (hh : l.head? = some c) (hc : isPySpace c = false) : lstrip l = l := by
  cases l with
  | nil => rfl
  | cons a as =>
    simp only [List.head?_cons, Option.some.injEq] at hh
    subst hh
    simp [lstrip, List.dropWhile_cons, hc]

theorem lstrip_append {a b : List Char} (h : lstrip a ≠ []) :
    lstrip (a ++ b) = lstrip a ++ b := by
  have h' : (a.dropWhile isPySpace).isEmpty = false := by
    cases hd : a.dropWhile isPySpace with
    | nil => exact absurd hd h
    | cons x xs => rfl
  show (a ++ b).dropWhile isPySpace = a.dropWhile isPySpace ++ b
  rw [List.dropWhile_append, h']
  simp

theorem rstrip_append {a b : List Char} (h : rstrip b ≠ []) :
    rstrip (a ++ b) = a ++ rstrip b := by
  have hb : (b.reverse.dropWhile isPySpace).isEmpty = false := by
    cases hd : b.reverse.dropWhile isPySpace with
    | nil =>
      exfalso; apply h
      show (b.reverse.dropWhile isPySpace).reverse = []
      rw [hd]; rfl
    | cons x xs => rfl
  show ((a ++ b).reverse.dropWhile isPySpace).reverse = a ++ rstrip b
  rw [List.reverse_append, List.dropWhile_append, hb]
  simp [rstrip, List.rdropWhile]

theorem rstrip_ne_nil_of_mem {l : List Char} {c : Char} (hc : c ∈ l)
    (hs : isPySpace c = false) : rstrip l ≠ [] := by
  intro hn
  rw [rstrip_eq_nil_iff] at hn
  rw [hn c hc] at hs
  exact Bool.noConfusion hs

theorem mem_lstrip_of_not_space {l : List Char} {c : Char} (hc : c ∈ l)
    (hs : isPySpace c = false) : c ∈ lstrip l := by
  have hsplit := List.takeWhile_append_dropWhile (p := isPySpace) (l := l)
  rw [← hsplit] at hc
  rcases List.mem_append.1 hc with h | h
  · have := List.mem_takeWhile_imp h
    rw [this] at hs; exact Bool.noConfusion hs
  · exact h

theorem pyStrip_eq_nil_iff {l : List Char} :
    pyStrip l = [] ↔ ∀ c ∈ l, isPySpace c = true := by
  constructor
  · intro h c hc
    by_contra hns
    rw [Bool.not_eq_true] at hns
    exact rstrip_ne_nil_of_mem (mem_lstrip_of_not_space hc hns) hns h
  · intro h
    have h1 : lstrip l = [] := lstrip_eq_nil_iff.2 h
    simp [pyStrip, h1, rstrip, List.rdropWhile]

theorem pyStrip_ne_nil_iff {l : List Char} :
    pyStrip l ≠ [] ↔ ∃ c ∈ l, isPySpace c = false := by
  rw [Ne, pyStrip_eq_nil_iff]
  push_neg
  simp only [Bool.not_eq_true]

theorem head?_pyStrip_not {l : List Char} {c : Char}
    (h : (pyStrip l).head? = some c) : isPySpace c = false := by
  have hne : pyStrip l ≠ [] := by intro hn; rw [hn] at h; exact Option.noConfusion h
  have hpre : pyStrip l <+: lstrip l := List.rdropWhile_prefix isPySpace (lstrip l)
  have hhead := hpre.head hne
  rw [List.head?_eq_head hne, Option.some.injEq] at h
  apply head?_lstrip_not (l := l)
  rw [List.head?_eq_head (hpre.ne_nil hne), ← hhead, h]

theorem lstrip_pyStrip (l : List Char) : lstrip (pyStrip l) = pyStrip l := by
  cases h : (pyStrip l).head? with
  | none =>
    rw [List.head?_eq_none_iff] at h
    rw [h]; rfl
  | some c => exact lstrip_eq_self_of_head h (head?_pyStrip_not h)

theorem pyStrip_idem (l : List Char) : pyStrip (pyStrip l) = pyStrip l := by
  conv_lhs => rw [pyStrip, lstrip_pyStrip]
  rw [pyStrip, rstrip_idem]

/-! ## Lemmas about line splitting and joining -/

theorem splitChar_ne_nil (sep : Char) (l : List Char) : splitChar sep l ≠ [] := by
  cases l with
  | nil => simp [splitChar]
  | cons c cs =>
    rw [splitChar]
    split
    · simp
    · cases h : splitChar sep cs <;> simp

theorem joinNl_cons {a : List Char} {ls : List (List Char)} (h : ls ≠ []) :
    joinNl (a :: ls) = a ++ '\n' :: joinNl ls := by
  cases ls with
  | nil => exact absurd rfl h
  | cons b bs => rfl

theorem joinNl_cons_head (c : Char) (l : List Char) (ls : List (List Char)) :
    joinNl ((c :: l) :: ls) = c :: joinNl (l :: ls) := by
  cases ls with
  | nil => rfl
  | cons b bs => rfl

theorem joinNl_splitNl (l : List Char) : joinNl (splitNl l) = l := by
  induction l with
  | nil => rfl
  | cons c cs ih =>
    show joinNl (splitChar '\n' (c :: cs)) = c :: cs
    rw [splitChar]
    split
    · next hc =>
      rw [joinNl_cons (splitChar_ne_nil '\n' cs), hc]
      simpa using ih
    · next hc =>
      cases hsc : splitChar '\n' cs with
      | nil => exact absurd hsc (splitChar_ne_nil '\n' cs)
      | cons l' ls =>
        rw [joinNl_cons_head, ← hsc]
        exact congrArg (c :: ·) ih

theorem not_mem_of_mem_splitChar {sep : Char} {l x : List Char}
    (h : x ∈ splitChar sep l) : sep ∉ x := by
  induction l generalizing x with
  | nil =>
    simp only [splitChar, List.mem_singleton] at h
    subst h; simp
  | cons c cs ih =>
    rw [splitChar] at h
    split at h
    · rcases List.mem_cons.1 h with h1 | h1
      · subst h1; simp
      · exact ih h1
    · next hc =>
      cases hsc : splitChar sep cs with
      | nil => exact absurd hsc (splitChar_ne_nil sep cs)
      | cons l' ls =>
        rw [hsc] at h
        rcases List.mem_cons.1 h with h1 | h1
        · subst h1
          intro hmem
          rcases List.mem_cons.1 hmem with h2 | h2
          · exact hc h2.symm
          · exact ih (hsc ▸ List.mem_cons_self l' ls) h2
        · exact ih (hsc ▸ List.mem_cons_of_mem l' h1)

theorem splitChar_eq_single {sep : Char} {l : List Char} (h : sep ∉ l) :
    splitChar sep l = [l] := by
  induction l with
  | nil => rfl
  | cons c cs ih =>
    rw [splitChar]
    have hc : ¬c = sep := fun he => h (he ▸ List.mem_cons_self c cs)
    rw [if_neg hc, ih (fun hm => h (List.mem_cons_of_mem c hm))]

theorem splitNl_append {a r : List Char} (h : ('\n' : Char) ∉ a) :
    splitNl (a ++ '\n' :: r) = a :: splitNl r := by
  induction a with
  | nil => simp [splitNl, splitChar]
  | cons c cs ih =>
    have hc : ¬c = '\n' := fun he => h (he ▸ List.mem_cons_self c cs)
    show splitChar '\n' (c :: (cs ++ '\n' :: r)) = (c :: cs) :: splitNl r
    rw [splitChar, if_neg hc]
    have := ih (fun hm => h (List.mem_cons_of_mem c hm))
    rw [splitNl] at this
    rw [this]

theorem splitNl_getLast_nonblank {u : List Char} {c : Char}
    (hc : u.getLast? = some c) (hs : isPySpace c = false) :
    ∃ x, (splitNl u).getLast? = some x ∧ pyStrip x ≠ [] := by
  induction u with
  | nil => exact Option.noConfusion hc
  | cons a as ih =>
    cases as with
    | nil =>
      simp only [List.getLast?_singleton, Option.some.injEq] at hc
      subst hc
      have ha : ¬a = '\n' := by
        intro he; rw [he] at hs; exact Bool.noConfusion hs
      refine ⟨[a], ?_, ?_⟩
      · show (splitChar '\n' [a]).getLast? = some [a]
        rw [splitChar, if_neg ha]; rfl
      · exact pyStrip_ne_nil_iff.2 ⟨a, List.mem_singleton_self a, hs⟩
    | cons b bs =>
      rw [List.getLast?_cons_cons] at hc
      obtain ⟨x, hx, hxs⟩ := ih hc
      have hx0 : (splitChar '\n' (b :: bs)).getLast? = some x := hx
      show (∃ y, (splitChar '\n' (a :: b :: bs)).getLast? = some y ∧ pyStrip y ≠ [])
      cases hsp : splitChar '\n' (b :: bs) with
      | nil => exact absurd hsp (splitChar_ne_nil _ _)
      | cons l' ls =>
        rw [hsp] at hx0
        rw [splitChar]
        split
        · refine ⟨x, ?_, hxs⟩
          rw [hsp, List.getLast?_cons_cons]
          exact hx0
        · rw [hsp]
          cases ls with
          | nil =>
            simp only [List.getLast?_singleton, Option.some.injEq] at hx0
            refine ⟨a :: l', rfl, ?_⟩
            rw [pyStrip_ne_nil_iff] at hxs ⊢
            obtain ⟨d, hd, hds⟩ := hxs
            exact ⟨d, List.mem_cons_of_mem a (by rw [hx0]; exact hd), hds⟩
          | cons l'' ls' =>
            refine ⟨x, ?_, hxs⟩
            show ((a :: l') :: l'' :: ls').getLast? = some x
            rw [List.getLast?_cons_cons]
            exact hx0

/-! ## Lemmas about `popTrailingBlanks` -/

theorem popTrailingBlanks_prefix_of (ls : List (List Char)) :
    popTrailingBlanks ls <+: ls := by
  have hsuf : ls.reverse.dropWhile (fun l => pyStrip l = []) <:+ ls.reverse :=
    List.dropWhile_suffix _
  have := List.reverse_prefix.2 hsuf
  rwa [List.reverse_reverse] at this

theorem mem_of_mem_popTrailingBlanks {ls : List (List Char)} {x : List Char}
    (h : x ∈ popTrailingBlanks ls) : x ∈ ls :=
  (popTrailingBlanks_prefix_of ls).subset h

theorem popTrailingBlanks_eq_self {ls : List (List Char)} {x : List Char}
    (hx : ls.getLast? = some x) (hs : pyStrip x ≠ []) : popTrailingBlanks ls = ls := by
  rw [popTrailingBlanks]
  have hh : ls.reverse.head? = some x := by rw [List.head?_reverse]; exact hx
  cases hrev : ls.reverse with
  | nil => rw [hrev] at hh; exact Option.noConfusion hh
  | cons y ys =>
    rw [hrev] at hh
    simp only [List.head?_cons, Option.some.injEq] at hh
    subst hh
    rw [List.dropWhile_cons_of_neg (by simpa using hs), ← hrev, List.reverse_reverse]

theorem popTrailingBlanks_getLast {ls : List (List Char)} {x : List Char}
    (h : (popTrailingBlanks ls).getLast? = some x) : pyStrip x ≠ [] := by
  rw [popTrailingBlanks, List.getLast?_reverse] at h
  have hne : ls.reverse.dropWhile (fun l => pyStrip l = []) ≠ [] := by
    intro hn; rw [hn] at h; exact Option.noConfusion h
  have hhead := List.head_dropWhile_not (fun l => decide (pyStrip l = [])) ls.reverse hne
  rw [List.head?_eq_head hne, Option.some.injEq] at h
  rw [h] at hhead
  simpa using hhead

theorem popTrailingBlanks_ne_nil {l₀ : List (List Char)} {a : List Char}
    {post : List (List Char)} (hl : l₀ = a :: post) (ha : pyStrip a ≠ []) :
    popTrailingBlanks l₀ ≠ [] := by
  subst hl
  rw [popTrailingBlanks]
  intro hn
  rw [List.reverse_eq_nil_iff, List.dropWhile_eq_nil_iff] at hn
  have := hn a (by simp)
  simp only [decide_eq_true_eq] at this
  exact ha this

theorem mem_joinNl {L : List (List Char)} {l : List Char} {c : Char}
    (hl : l ∈ L) (hc : c ∈ l) : c ∈ joinNl L := by
  induction L with
  | nil => exact absurd hl (List.not_mem_nil l)
  | cons a ls ih =>
    cases ls with
    | nil =>
      rw [List.mem_singleton] at hl
      subst hl
      exact hc
    | cons b bs =>
      rw [joinNl_cons (by simp)]
      rcases List.mem_cons.1 hl with h1 | h1
      · subst h1
        exact List.mem_append_left _ hc
      · exact List.mem_append_right _ (List.mem_cons_of_mem '\n' (ih h1))

/-! ## Lemmas about the extraction loop -/

theorem extractStep_no_match {st : ExtractState} {line : List Char}
    (hm : sqlStartMatch line = false) (hin : st.inSql = false) :
    extractStep st line = st := by
  rw [extractStep]
  split
  · rfl
  · split
    · rfl
    · simp only [hm]
      simp [hin]

theorem foldl_extractStep_inSql {ls : List (List Char)} (sl : List (List Char))
    (hne : sl ≠ []) :
    ls.foldl extractStep ⟨sl, true, false⟩ = ⟨sl ++ ls, true, false⟩ := by
  induction ls generalizing sl with
  | nil => simp
  | cons a as ih =>
    rw [List.foldl_cons]
    have hstep : extractStep ⟨sl, true, false⟩ a = ⟨sl ++ [a], true, false⟩ := by
      rw [extractStep]
      rw [if_neg (by simp [hne])]
      rw [if_neg (by simp)]
      simp
    rw [hstep, ih (sl ++ [a]) (by simp)]
    simp

theorem foldl_extractStep_start {m : List Char} {rest : List (List Char)}
    (h1 : pyStrip m ≠ []) (h2 : isCommentary m = false) (h3 : sqlStartMatch m = true) :
    (m :: rest).foldl extractStep initState = ⟨m :: rest, true, false⟩ := by
  rw [List.foldl_cons]
  have hst : extractStep initState m = ⟨[m], true, false⟩ := by
    rw [extractStep]
    rw [if_neg (by simp [h1])]
    rw [if_neg (by simp [h2])]
    simp [h3, initState]
  rw [hst, foldl_extractStep_inSql [m] (by simp)]
  rfl

theorem foldl_extractStep_structure (lines : List (List Char)) :
    lines.foldl extractStep initState = initState ∨
    ∃ l₀ post, lines.foldl extractStep initState = ⟨l₀ :: post, true, false⟩ ∧
      l₀ ∈ lines ∧ (∀ x ∈ post, x ∈ lines) ∧
      sqlStartMatch l₀ = true ∧ isCommentary l₀ = false ∧ pyStrip l₀ ≠ [] := by
  induction lines with
  | nil => exact Or.inl rfl
  | cons a as ih =>
    rw [List.foldl_cons]
    by_cases hblank : pyStrip a = []
    · have hstep : extractStep initState a = initState := by
        rw [extractStep, if_pos ⟨hblank, rfl⟩]
      rw [hstep]
      rcases ih with h | ⟨l₀, post, hres, hmem, hpost, hp1, hp2, hp3⟩
      · exact Or.inl h
      · exact Or.inr ⟨l₀, post, hres, List.mem_cons_of_mem a hmem,
          fun x hx => List.mem_cons_of_mem a (hpost x hx), hp1, hp2, hp3⟩
    · by_cases hcom : isCommentary a = true
      · have hstep : extractStep initState a = initState := by
          rw [extractStep, if_neg (by simp [hblank]), if_pos ⟨rfl, hcom⟩]
        rw [hstep]
        rcases ih with h | ⟨l₀, post, hres, hmem, hpost, hp1, hp2, hp3⟩
        · exact Or.inl h
        · exact Or.inr ⟨l₀, post, hres, List.mem_cons_of_mem a hmem,
            fun x hx => List.mem_cons_of_mem a (hpost x hx), hp1, hp2, hp3⟩
      · by_cases hmatch : sqlStartMatch a = true
        · have hstep : extractStep initState a = ⟨[a], true, false⟩ := by
            rw [extractStep, if_neg (by simp [hblank]), if_neg (by simp [hcom])]
            simp [hmatch, initState]
          rw [hstep, foldl_extractStep_inSql [a] (by simp)]
          refine Or.inr ⟨a, as, by simp, List.mem_cons_self a as,
            fun x hx => List.mem_cons_of_mem a hx, hmatch, ?_, hblank⟩
          cases h : isCommentary a
          · rfl
          · exact absurd h hcom
        · have hstep : extractStep initState a = initState :=
            extractStep_no_match (by simpa using hmatch) rfl
          rw [hstep]
          rcases ih with h | ⟨l₀, post, hres, hmem, hpost, hp1, hp2, hp3⟩
          · exact Or.inl h
          · exact Or.inr ⟨l₀, post, hres, List.mem_cons_of_mem a hmem,
              fun x hx => List.mem_cons_of_mem a (hpost x hx), hp1, hp2, hp3⟩

theorem foldl_extractStep_no_match {lines : List (List Char)}
    (h : ∀ l ∈ lines, sqlStartMatch l = false) :
    lines.foldl extractStep initState = initState := by
  induction lines with
  | nil => rfl
  | cons a as ih =>
    rw [List.foldl_cons]
    have hstep : extractStep initState a = initState := by
      rcases foldl_extractStep_structure [a] with h1 | ⟨l₀, post, _, hmem, _, hp1, _, _⟩
      · simpa using h1
      · rw [List.mem_singleton] at hmem
        subst hmem
        exact absurd hp1 (by simp [h l₀ (List.mem_cons_self l₀ as)])
    rw [hstep]
    exact ih (fun l hl => h l (List.mem_cons_of_mem a hl))

/-! ## Keyword and commentary bridging lemmas -/

theorem space_toUpper {c : Char} (h : isPySpace c = true) : c.toUpper = c := by
  simp only [isPySpace, Bool.or_eq_true, decide_eq_true_eq] at h
  rcases h with ((((h | h) | h) | h) | h) | h <;> subst h <;> decide

theorem cons_prefix_head? {g : Char} {gr t : List Char} (h : (g :: gr) <+: t) :
    t.head? = some g := by
  obtain ⟨r, hr⟩ := h
  rw [← hr]
  rfl

theorem prefix_head?_eq {kw y : List Char} (hne : kw ≠ []) (h : kw <+: y) :
    y.head? = kw.head? := by
  obtain ⟨r, hr⟩ := h
  subst hr
  cases kw with
  | nil => exact absurd rfl hne
  | cons a l => rfl

theorem sqlKeywords_ne_nil {kw : List Char} (h : kw ∈ sqlKeywords) : kw ≠ [] := by
  simp only [sqlKeywords, List.mem_cons, List.not_mem_nil, or_false] at h
  rcases h with h | h | h | h | h | h | h | h | h | h | h <;> subst h <;> decide

theorem sqlKeywords_no_space {kw : List Char} (h : kw ∈ sqlKeywords) :
    ∀ c ∈ kw, isPySpace c = false := by
  simp only [sqlKeywords, List.mem_cons, List.not_mem_nil, or_false] at h
  rcases h with h | h | h | h | h | h | h | h | h | h | h <;> subst h <;> decide

theorem sqlKeywords_not_start_banner {kw : List Char} (h : kw ∈ sqlKeywords) :
    ¬kw <+: pyUpper ("Starting AI".toList) ∧
      kw.length ≤ (pyUpper ("Starting AI".toList)).length := by
  simp only [sqlKeywords, List.mem_cons, List.not_mem_nil, or_false] at h
  rcases h with h | h | h | h | h | h | h | h | h | h | h <;> subst h <;>
    exact ⟨by decide, by decide⟩

theorem sqlKeywords_head_not_glyph {kw : List Char} (h : kw ∈ sqlKeywords)
    {g : Char} (hg : g ∈ ['─', '🔍', '✨', '➜']) : kw.head? ≠ some g.toUpper := by
  simp only [sqlKeywords, List.mem_cons, List.not_mem_nil, or_false] at h
  simp only [List.mem_cons, List.not_mem_nil, or_false] at hg
  rcases h with h | h | h | h | h | h | h | h | h | h | h <;> subst h <;>
    rcases hg with hg | hg | hg | hg <;> subst hg <;> decide

theorem keyword_head {t kw : List Char} {g : Char} (hmem : kw ∈ sqlKeywords)
    (hpre : kw <+: pyUpper t) (hh : t.head? = some g) : kw.head? = some g.toUpper := by
  have h1 : (pyUpper t).head? = some g.toUpper := by
    rw [pyUpper, List.head?_map, hh]
    rfl
  rw [← prefix_head?_eq (sqlKeywords_ne_nil hmem) hpre, h1]

theorem sqlStartMatch_iff {line : List Char} :
    sqlStartMatch line = true ↔
      ∃ kw ∈ sqlKeywords, kw <+: pyUpper (line.dropWhile isPySpace) := by
  rw [sqlStartMatch, List.any_eq_true]
  constructor
  · rintro ⟨kw, h1, h2⟩
    exact ⟨kw, h1, by simpa [ List.isPrefixOf_iff_prefix] using h2⟩
  · rintro ⟨kw, h1, h2⟩
    exact ⟨kw, h1, by simpa [ List.isPrefixOf_iff_prefix] using h2⟩

theorem not_commentary_of {t l₀ : List Char} (hinf : t <:+: l₀)
    (hcom : isCommentary l₀ = false)
    {kw : List Char} (hmem : kw ∈ sqlKeywords) (hpre : kw <+: pyUpper t) :
    isCommentary t = false := by
  have hlow : pyLower t <:+: pyLower l₀ := hinf.map Char.toLower
  rw [isCommentary] at hcom
  simp only [Bool.or_eq_false_iff] at hcom
  obtain ⟨⟨⟨⟨⟨⟨⟨⟨hb1, hb2⟩, hb3⟩, hb4⟩, hb5⟩, hc6⟩, hc7⟩, hc8⟩, hc9⟩ := hcom
  rw [isCommentary]
  simp only [Bool.or_eq_false_iff]
  simp only [containsSeq, decide_eq_false_iff_not] at hc6 hc7 hc8 hc9 ⊢
  refine ⟨⟨⟨⟨⟨⟨⟨⟨?_, ?_⟩, ?_⟩, ?_⟩, ?_⟩, ?_⟩, ?_⟩, ?_⟩, ?_⟩
  · simp only [ List.isPrefixOf_iff_prefix, Bool.eq_false_iff, Ne]
    intro habs
    have h1 : pyUpper ("Starting AI".toList) <+: pyUpper t := habs.map Char.toUpper
    obtain ⟨hnp, hlen⟩ := sqlKeywords_not_start_banner hmem
    exact hnp (List.prefix_of_prefix_length_le hpre h1 hlen)
  · simp only [ List.isPrefixOf_iff_prefix, Bool.eq_false_iff, Ne]
    intro habs
    have hh : t.head? = some '─' := cons_prefix_head? habs
    exact sqlKeywords_head_not_glyph hmem (by simp) (keyword_head hmem hpre hh)
  · simp only [ List.isPrefixOf_iff_prefix, Bool.eq_false_iff, Ne]
    intro habs
    have hh : t.head? = some '🔍' := cons_prefix_head? habs
    exact sqlKeywords_head_not_glyph hmem (by simp) (keyword_head hmem hpre hh)
  · simp only [ List.isPrefixOf_iff_prefix, Bool.eq_false_iff, Ne]
    intro habs
    have hh : t.head? = some '✨' := cons_prefix_head? habs
    exact sqlKeywords_head_not_glyph hmem (by simp) (keyword_head hmem hpre hh)
  · simp only [ List.isPrefixOf_iff_prefix, Bool.eq_false_iff, Ne]
    intro habs
    have hh : t.head? = some '➜' := cons_prefix_head? habs
    exact sqlKeywords_head_not_glyph hmem (by simp) (keyword_head hmem hpre hh)
  · exact fun habs => hc6 (habs.trans hlow)
  · exact fun habs => hc7 (habs.trans hlow)
  · exact fun habs => hc8 (habs.trans hlow)
  · exact fun habs => hc9 (habs.trans hlow)

theorem rstrip_keeps_kw (kw : List Char) : ∀ (m : List Char), kw <+: pyUpper m →
    (∀ c ∈ kw, isPySpace c = false) → kw <+: pyUpper (rstrip m) := by
  induction kw with
  | nil => intro m _ _; exact List.nil_prefix
  | cons k kr ih =>
    intro m h hsp
    cases m with
    | nil =>
      rw [show pyUpper [] = [] from rfl, List.prefix_nil] at h
      exact absurd h (by simp)
    | cons c mr =>
      rw [pyUpper, List.map_cons, List.cons_prefix_cons] at h
      obtain ⟨hk, hrest⟩ := h
      have hc : isPySpace c = false := by
        cases hcs : isPySpace c
        · rfl
        · exfalso
          have hup := space_toUpper hcs
          have hks := hsp k (List.mem_cons_self k kr)
          rw [hk, hup, hcs] at hks
          exact Bool.noConfusion hks
      have hih := ih mr hrest (fun d hd => hsp d (List.mem_cons_of_mem k hd))
      by_cases hkr : kr = []
      · subst hkr
        by_cases hmr : rstrip mr = []
        · have hr : rstrip (c :: mr) = [c] := by
            show ((c :: mr).reverse.dropWhile isPySpace).reverse = [c]
            rw [List.reverse_cons, List.dropWhile_append]
            have hnil : mr.reverse.dropWhile isPySpace = [] := by
              rw [rstrip, List.rdropWhile, List.reverse_eq_nil_iff] at hmr
              exact hmr
            rw [hnil]
            simp [List.dropWhile_cons, hc]
          rw [hr, pyUpper, List.map_cons]
          rw [List.cons_prefix_cons]
          exact ⟨hk, List.nil_prefix⟩
        · have hr : rstrip (c :: mr) = c :: rstrip mr := by
            have := rstrip_append (a := [c]) (b := mr) hmr
            simpa using this
          rw [hr, pyUpper, List.map_cons, List.cons_prefix_cons]
          exact ⟨hk, List.nil_prefix⟩
      · have hne2 : pyUpper (rstrip mr) ≠ [] := hih.ne_nil hkr
        have hmr : rstrip mr ≠ [] := by
          intro hn
          apply hne2
          rw [hn]
          rfl
        have hr : rstrip (c :: mr) = c :: rstrip mr := by
          have := rstrip_append (a := [c]) (b := mr) hmr
          simpa using this
        rw [hr, pyUpper, List.map_cons, List.cons_prefix_cons]
        exact ⟨hk, hih⟩

theorem lstrip_subset (l : List Char) : lstrip l ⊆ l :=
  (List.dropWhile_suffix isPySpace).subset

theorem pyStrip_subset (l : List Char) : pyStrip l ⊆ l := by
  intro c hc
  have h1 : c ∈ lstrip l := ( List.rdropWhile_prefix isPySpace (lstrip l)).subset hc
  exact lstrip_subset l h1

theorem pyStrip_infix (l : List Char) : pyStrip l <:+: l :=
  (( List.rdropWhile_prefix isPySpace (lstrip l)).isInfix).trans
    ((List.dropWhile_suffix isPySpace).isInfix)

/-! ## The extractor is a fixed point on well-formed SQL text -/

theorem extract_fixed_point {u t₀ : List Char} {rest : List (List Char)}
    (hsplit : splitNl u = t₀ :: rest)
    (hu : pyStrip u = u) (hune : u ≠ [])
    (h1 : pyStrip t₀ ≠ []) (h2 : isCommentary t₀ = false) (h3 : sqlStartMatch t₀ = true)
    (h4 : ∃ x, (splitNl u).getLast? = some x ∧ pyStrip x ≠ []) :
    extract_sql_from_output u = some u := by
  rw [extract_sql_from_output]
  rw [if_neg (show ¬(u = [] ∨ pyStrip u = []) by
    push_neg
    exact ⟨hune, by rw [hu]; exact hune⟩)]
  have hfold : (splitNl u).foldl extractStep initState = ⟨t₀ :: rest, true, false⟩ := by
    rw [hsplit]
    exact foldl_extractStep_start h1 h2 h3
  have hsl : structuredLines u = t₀ :: rest := by
    rw [structuredLines, hfold]
    obtain ⟨x, hx, hxs⟩ := h4
    rw [hsplit] at hx
    exact popTrailingBlanks_eq_self hx hxs
  rw [if_pos (by rw [hsl]; exact List.cons_ne_nil t₀ rest), hsl, ← hsplit,
    joinNl_splitNl, hu]

theorem structured_output_extract {s t : List Char}
    (hst : structuredLines s ≠ [])
    (hext : extract_sql_from_output s = some t) :
    extract_sql_from_output t = some t := by
  rw [extract_sql_from_output] at hext
  by_cases hguard : s = [] ∨ pyStrip s = []
  · rw [if_pos hguard] at hext
    exact Option.noConfusion hext
  rw [if_neg hguard, if_pos hst] at hext
  have ht : t = pyStrip (joinNl (structuredLines s)) := (Option.some.inj hext).symm
  rcases foldl_extractStep_structure (splitNl s) with hinit | hstructure
  · exfalso
    apply hst
    rw [structuredLines, hinit]
    rfl
  obtain ⟨l₀, post, hres, hl₀mem, hpostmem, hmatch, hcom, hblank⟩ := hstructure
  have hLdef : structuredLines s = popTrailingBlanks (l₀ :: post) := by
    rw [structuredLines, hres]
  have hLpre : structuredLines s <+: l₀ :: post := by
    rw [hLdef]
    exact popTrailingBlanks_prefix_of (l₀ :: post)
  obtain ⟨kw, hkmem, hkpre⟩ := sqlStartMatch_iff.1 hmatch
  have hmne : lstrip l₀ ≠ [] := by
    intro hn
    have h0 : pyUpper (l₀.dropWhile isPySpace) = [] := by
      rw [show l₀.dropWhile isPySpace = lstrip l₀ from rfl, hn]
      rfl
    rw [h0, List.prefix_nil] at hkpre
    exact sqlKeywords_ne_nil hkmem hkpre
  have hnlfree : ∀ x ∈ structuredLines s, ('\n' : Char) ∉ x := by
    intro x hx
    have hx2 : x ∈ l₀ :: post :=
      mem_of_mem_popTrailingBlanks (by rw [← hLdef]; exact hx)
    have hx3 : x ∈ splitNl s := by
      rcases List.mem_cons.1 hx2 with h | h
      · exact h ▸ hl₀mem
      · exact hpostmem x h
    exact not_mem_of_mem_splitChar hx3
  cases hL : structuredLines s with
  | nil => exact absurd hL hst
  | cons y ys =>
    have hy0 : y = l₀ := by
      rw [hL] at hLpre
      exact (List.cons_prefix_cons.1 hLpre).1
    rw [hy0] at hL
    have hnl₀ : ('\n' : Char) ∉ l₀ := hnlfree l₀ (by rw [hL]; exact List.mem_cons_self _ _)
    cases ys with
    | nil =>
      -- single collected line: t = pyStrip l₀
      have ht1 : t = pyStrip l₀ := by rw [ht, hL]; rfl
      have hstrip0 : pyStrip l₀ ≠ [] := by
        have hx0 : (popTrailingBlanks (l₀ :: post)).getLast? = some l₀ := by
          rw [← hLdef, hL]
          simp
        exact popTrailingBlanks_getLast hx0
      have htne : t ≠ [] := by rw [ht1]; exact hstrip0
      have hpyt : pyStrip t = t := by rw [ht1, pyStrip_idem]
      have hnlt : ('\n' : Char) ∉ t := fun hmem => hnl₀ (pyStrip_subset l₀ (ht1 ▸ hmem))
      have hsplitT : splitNl t = [t] := splitChar_eq_single hnlt
      have hkpret : kw <+: pyUpper t := by
        rw [ht1]
        exact rstrip_keeps_kw kw (lstrip l₀) hkpre (sqlKeywords_no_space hkmem)
      have hlst : lstrip t = t := by rw [ht1]; exact lstrip_pyStrip l₀
      have h3' : sqlStartMatch t = true := by
        apply sqlStartMatch_iff.2
        exact ⟨kw, hkmem, by rw [show t.dropWhile isPySpace = lstrip t from rfl, hlst]; exact hkpret⟩
      have h2' : isCommentary t = false :=
        not_commentary_of (ht1 ▸ pyStrip_infix l₀) hcom hkmem hkpret
      have h1' : pyStrip t ≠ [] := by rw [hpyt]; exact htne
      exact extract_fixed_point hsplitT hpyt htne h1' h2' h3'
        ⟨t, by rw [hsplitT]; rfl, h1'⟩
    | cons p ps =>
      -- several collected lines
      have hJne : (p :: ps : List (List Char)) ≠ [] := by simp
      have htJ : t = pyStrip (l₀ ++ '\n' :: joinNl (p :: ps)) := by
        rw [ht, hL, joinNl_cons hJne]
      -- the last collected line is non-blank, hence `rstrip J ≠ []`
      obtain ⟨x, hx, hxs⟩ : ∃ x, (structuredLines s).getLast? = some x ∧ pyStrip x ≠ [] := by
        have hne : structuredLines s ≠ [] := hst
        cases hgl : (structuredLines s).getLast? with
        | none => exact absurd (List.getLast?_eq_none_iff.1 hgl) hne
        | some x => exact ⟨x, rfl, popTrailingBlanks_getLast (by rw [← hLdef, hgl])⟩
      have hxmem : x ∈ p :: ps := by
        rw [hL, List.getLast?_cons_cons] at hx
        exact List.mem_of_getLast?_eq_some hx
      obtain ⟨c, hcx, hcs⟩ := pyStrip_ne_nil_iff.1 hxs
      have hcJ : c ∈ joinNl (p :: ps) := mem_joinNl hxmem hcx
      have hrsJ : rstrip (joinNl (p :: ps)) ≠ [] := rstrip_ne_nil_of_mem hcJ hcs
      have hrsNJ : rstrip ('\n' :: joinNl (p :: ps)) =
          '\n' :: rstrip (joinNl (p :: ps)) := by
        have := rstrip_append (a := ['\n']) (b := joinNl (p :: ps)) hrsJ
        simpa using this
      have ht2 : t = lstrip l₀ ++ '\n' :: rstrip (joinNl (p :: ps)) := by
        rw [htJ, pyStrip, lstrip_append hmne, rstrip_append (by rw [hrsNJ]; simp), hrsNJ]
      have hnlm : ('\n' : Char) ∉ lstrip l₀ := fun hmem => hnl₀ (lstrip_subset l₀ hmem)
      have hsplitT : splitNl t = lstrip l₀ :: splitNl (rstrip (joinNl (p :: ps))) := by
        rw [ht2]
        exact splitNl_append hnlm
      -- head-line properties
      obtain ⟨c₀, hc₀⟩ : ∃ c₀, (lstrip l₀).head? = some c₀ := by
        cases hm : lstrip l₀ with
        | nil => exact absurd hm hmne
        | cons a as => exact ⟨a, rfl⟩
      have hc₀s : isPySpace c₀ = false := head?_lstrip_not hc₀
      have hc₀mem : c₀ ∈ lstrip l₀ := by
        cases hm : lstrip l₀ with
        | nil => exact absurd hm hmne
        | cons a as =>
          rw [hm] at hc₀
          simp only [List.head?_cons, Option.some.injEq] at hc₀
          rw [← hc₀]
          exact List.mem_cons_self a as
      have h1' : pyStrip (lstrip l₀) ≠ [] := pyStrip_ne_nil_iff.2 ⟨c₀, hc₀mem, hc₀s⟩
      have h2' : isCommentary (lstrip l₀) = false :=
        not_commentary_of (List.dropWhile_suffix isPySpace).isInfix hcom hkmem hkpre
      have h3' : sqlStartMatch (lstrip l₀) = true := by
        apply sqlStartMatch_iff.2
        refine ⟨kw, hkmem, ?_⟩
        rw [show (lstrip l₀).dropWhile isPySpace = lstrip (lstrip l₀) from rfl, lstrip_idem]
        exact hkpre
      have hpyt : pyStrip t = t := by rw [htJ, pyStrip_idem]
      have htne : t ≠ [] := by
        rw [ht2]
        intro hn
        rw [List.append_eq_nil] at hn
        exact hmne hn.1
      -- last line of `splitNl t` is non-blank
      obtain ⟨d, hd⟩ : ∃ d, (rstrip (joinNl (p :: ps))).getLast? = some d := by
        cases hgl : (rstrip (joinNl (p :: ps))).getLast? with
        | none => exact absurd (List.getLast?_eq_none_iff.1 hgl) hrsJ
        | some d => exact ⟨d, rfl⟩
      have hds : isPySpace d = false := getLast?_rstrip_not hd
      obtain ⟨x', hx', hxs'⟩ := splitNl_getLast_nonblank hd hds
      have h4' : ∃ z, (splitNl t).getLast? = some z ∧ pyStrip z ≠ [] := by
        refine ⟨x', ?_, hxs'⟩
        rw [hsplitT]
        cases hsp : splitNl (rstrip (joinNl (p :: ps))) with
        | nil => exact absurd hsp (splitChar_ne_nil _ _)
        | cons w ws =>
          rw [List.getLast?_cons_cons, ← hsp]
          exact hx'
      exact extract_fixed_point hsplitT hpyt htne h1' h2' h3' h4'

/-! ## Lemmas about `splitSeqAux` / `pyReplace` -/

theorem splitSeqAux_nomatch_cons {sep : List Char} {c : Char} {cs acc : List Char}
    (h : sep.isPrefixOf (c :: cs) = false) :
    splitSeqAux sep 0 (c :: cs) acc = splitSeqAux sep 0 cs (c :: acc) := by
  rw [splitSeqAux, if_neg (fun hc => absurd hc.2 (by simp [h]))]

theorem splitSeqAux_no_occurrence {sep : List Char} {l : List Char} :
    ∀ {acc : List Char}, ¬sep <:+: l → splitSeqAux sep 0 l acc = [acc.reverse ++ l] := by
  induction l with
  | nil =>
    intro acc _
    rw [splitSeqAux]
    simp
  | cons c cs ih =>
    intro acc hno
    have hpre : sep.isPrefixOf (c :: cs) = false := by
      cases hp : sep.isPrefixOf (c :: cs)
      · rfl
      · exact absurd ((( List.isPrefixOf_iff_prefix).1 hp).isInfix) hno
    rw [splitSeqAux_nomatch_cons hpre, ih (fun hi => hno (List.infix_cons hi))]
    simp

theorem splitSeqAux_skip {sep : List Char} (xs : List Char) :
    ∀ (rest acc : List Char), splitSeqAux sep xs.length (xs ++ rest) acc =
      splitSeqAux sep 0 rest acc := by
  induction xs with
  | nil => intro rest acc; rfl
  | cons x xs' ih => intro rest acc; exact ih rest acc

theorem splitSeqAux_match {sep : List Char} (hne : sep ≠ []) (rest acc : List Char) :
    splitSeqAux sep 0 (sep ++ rest) acc = acc.reverse :: splitSeqAux sep 0 rest [] := by
  cases hsep : sep with
  | nil => exact absurd hsep hne
  | cons s ss =>
    show splitSeqAux (s :: ss) 0 (s :: (ss ++ rest)) acc = _
    rw [splitSeqAux, if_pos ⟨by simp, ( List.isPrefixOf_iff_prefix).2
      (show (s :: ss) <+: (s :: ss) ++ rest from List.prefix_append _ _)⟩]
    have hss : (s :: ss).length - 1 = ss.length := by simp
    rw [hss, splitSeqAux_skip ss rest []]

theorem splitSeqAux_ne_nil {sep : List Char} {l : List Char} :
    ∀ {k : Nat} {acc : List Char}, splitSeqAux sep k l acc ≠ [] := by
  induction l with
  | nil =>
    intro k acc
    cases k <;> simp [splitSeqAux]
  | cons c cs ih =>
    intro k acc
    cases k with
    | zero =>
      rw [splitSeqAux]
      split
      · simp
      · exact ih
    | succ k' => exact ih

theorem intercalate_cons_ne {sep x : List Char} {xs : List (List Char)} (h : xs ≠ []) :
    List.intercalate sep (x :: xs) = x ++ sep ++ List.intercalate sep xs := by
  cases xs with
  | nil => exact absurd rfl h
  | cons y ys =>
    rw [List.intercalate, List.intercalate, List.intersperse_cons₂]
    simp [List.append_assoc]

theorem pyReplace_no_occurrence {old new l : List Char} (h : ¬old <:+: l) :
    pyReplace old new l = l := by
  rw [pyReplace, pySplitSeq, splitSeqAux_no_occurrence h]
  simp [List.intercalate]

theorem pyReplace_match {old new rest : List Char} (hne : old ≠ []) :
    pyReplace old new (old ++ rest) = new ++ pyReplace old new rest := by
  rw [pyReplace, pySplitSeq, splitSeqAux_match hne,
    intercalate_cons_ne splitSeqAux_ne_nil]
  rw [pyReplace, pySplitSeq]
  simp

theorem not_infix_of_mem_skip {old l : List Char} {c : Char} (hc : c ∈ old)
    (hl : c ∉ l) : ¬old <:+: l :=
  fun h => hl (h.subset hc)

/-! ## The claims -/

/-- C1: the transport mode chosen at construction is `HTTP` exactly when the
port is one of `{443, 8123, 8443}` and `NATIVE` for every other port; the
mode (`self.use_http`, line 62) is a pure function of the port and agrees
with the spec's `select_transport` contract. -/
theorem claim_transport_mode (port : Int) :
    (select_transport port = TransportMode.HTTP ↔
      (port = 443 ∨ port = 8123 ∨ port = 8443)) ∧
    (select_transport port = TransportMode.NATIVE ↔
      ¬(port = 443 ∨ port = 8123 ∨ port = 8443)) ∧
    use_http port = decide (port = 443 ∨ port = 8123 ∨ port = 8443) := by
  have h3 : use_http port = decide (port = 443 ∨ port = 8123 ∨ port = 8443) := by
    rw [use_http]
    by_cases h : port = 443 ∨ port = 8123 ∨ port = 8443
    · rw [decide_eq_true h]
      rcases h with h | h | h <;> simp [h]
    · rw [decide_eq_false h]
      push_neg at h
      simp [h.1, h.2.1, h.2.2]
  refine ⟨?_, ?_, h3⟩
  · rw [select_transport]
    by_cases h : port = 443 ∨ port = 8123 ∨ port = 8443
    · simp [h]
    · simp [h]
  · rw [select_transport]
    by_cases h : port = 443 ∨ port = 8123 ∨ port = 8443
    · simp [h]
    · simp [h]

/-- C2: `execute_query` dispatches a statement with `" LIMIT <limit>"`
appended exactly when the uppercased statement has no `LIMIT` substring and
its trimmed uppercased form starts with `SELECT`; otherwise the statement
is dispatched unchanged. -/
theorem claim_limit_injection (sql : List Char) (limit : Int) :
    (containsSeq "LIMIT".toList (pyUpper sql) = false ∧
        "SELECT".toList.isPrefixOf (pyUpper (pyStrip sql)) = true →
      execute_query_sql sql limit = sql ++ " LIMIT ".toList ++ intToStr limit) ∧
    (¬(containsSeq "LIMIT".toList (pyUpper sql) = false ∧
        "SELECT".toList.isPrefixOf (pyUpper (pyStrip sql)) = true) →
      execute_query_sql sql limit = sql) := by
  constructor
  · intro h
    rw [execute_query_sql, if_pos h, List.append_assoc]
  · intro h
    rw [execute_query_sql, if_neg h]

/-- C2 witness: `"SELECT * FROM t"` with the default limit 10 becomes
`"SELECT * FROM t LIMIT 10"`, while `"SELECT * FROM t LIMIT 3"` is
dispatched unchanged. -/
theorem claim_limit_injection_witness :
    execute_query_sql "SELECT * FROM t".toList 10 =
      "SELECT * FROM t LIMIT 10".toList ∧
    execute_query_sql "SELECT * FROM t LIMIT 3".toList 10 =
      "SELECT * FROM t LIMIT 3".toList := by
  constructor
  · have h := (claim_limit_injection "SELECT * FROM t".toList 10).1 (by decide)
    rw [h]
    decide
  · exact (claim_limit_injection "SELECT * FROM t LIMIT 3".toList 10).2 (by decide)

/-- C3: the output extractor is idempotent on its own structured-path
output: whenever the structured scan collected lines from `s` (its first
non-skipped line starts with a recognized SQL keyword), feeding the
returned string back into the extractor returns it unchanged. -/
theorem claim_extract_idempotent (s t : List Char)
    (hst : structuredLines s ≠ [])
    (hext : extract_sql_from_output s = some t) :
    extract_sql_from_output t = some t :=
  structured_output_extract hst hext

/-- C3 witness: extraction from a noisy AI answer, then re-extraction of
the already-extracted SQL, returns it unchanged. -/
theorem claim_extract_idempotent_witness :
    extract_sql_from_output "SELECT * FROM visits LIMIT 5".toList =
      some "SELECT * FROM visits LIMIT 5".toList :=
  claim_extract_idempotent "🔍 searching...\nSELECT * FROM visits LIMIT 5".toList
    "SELECT * FROM visits LIMIT 5".toList (by decide) (by decide)

/-- C4: on input with no statement-starting line and no SQL-characteristic
keyword occurrence anywhere, the extractor returns `None`. -/
theorem claim_extract_pure_commentary_none (s : List Char)
    (h1 : ∀ l ∈ splitNl s, sqlStartMatch l = false)
    (h2 : fallbackMatch (pyStrip s) = false) :
    extract_sql_from_output s = none := by
  rw [extract_sql_from_output]
  by_cases hguard : s = [] ∨ pyStrip s = []
  · rw [if_pos hguard]
  · rw [if_neg hguard]
    have hsl : structuredLines s = [] := by
      rw [structuredLines, foldl_extractStep_no_match h1]
      rfl
    rw [if_neg (by simp [hsl])]
    simp only [fallbackExtract, h2]
    simp

/-- C4 witness: pure commentary with no SQL keyword anywhere yields `None`. -/
theorem claim_extract_pure_commentary_none_witness :
    extract_sql_from_output "hello world, nothing here".toList = none :=
  claim_extract_pure_commentary_none "hello world, nothing here".toList
    (by decide) (by decide)

/-- C10: any string returned by the extractor is non-empty and equal to its
own whitespace-trim, on every return path including the dash-separator
fallback. -/
theorem claim_extract_trimmed_nonempty (s t : List Char)
    (h : extract_sql_from_output s = some t) :
    t ≠ [] ∧ pyStrip t = t := by
  rw [extract_sql_from_output] at h
  by_cases hguard : s = [] ∨ pyStrip s = []
  · rw [if_pos hguard] at h
    exact Option.noConfusion h
  rw [if_neg hguard] at h
  push_neg at hguard
  by_cases hst : structuredLines s ≠ []
  · rw [if_pos hst] at h
    have ht : t = pyStrip (joinNl (structuredLines s)) := (Option.some.inj h).symm
    constructor
    · obtain ⟨x, hx⟩ : ∃ x, (structuredLines s).getLast? = some x := by
        cases hgl : (structuredLines s).getLast? with
        | none => exact absurd (List.getLast?_eq_none_iff.1 hgl) hst
        | some x => exact ⟨x, rfl⟩
      have hxs : pyStrip x ≠ [] :=
        popTrailingBlanks_getLast
          (show (popTrailingBlanks
            ((splitNl s).foldl extractStep initState).sqlLines).getLast? = some x from hx)
      obtain ⟨c, hcx, hcs⟩ := pyStrip_ne_nil_iff.1 hxs
      have hcj : c ∈ joinNl (structuredLines s) :=
        mem_joinNl (List.mem_of_getLast?_eq_some hx) hcx
      rw [ht]
      exact pyStrip_ne_nil_iff.2 ⟨c, hcj, hcs⟩
    · rw [ht, pyStrip_idem]
  · rw [if_neg hst] at h
    simp only [fallbackExtract] at h
    split_ifs at h with hf1 hf2 hf3 hf4
    · have ht : t = pyStrip ((pySplitSeq sep50 (pyStrip s)).getLastD []) :=
        (Option.some.inj h).symm
      exact ⟨by rw [ht]; exact hf4, by rw [ht, pyStrip_idem]⟩
    · have ht : t = pyStrip s := (Option.some.inj h).symm
      exact ⟨by rw [ht]; exact hguard.2, by rw [ht, pyStrip_idem]⟩
    · have ht : t = pyStrip s := (Option.some.inj h).symm
      exact ⟨by rw [ht]; exact hguard.2, by rw [ht, pyStrip_idem]⟩
    · have ht : t = pyStrip s := (Option.some.inj h).symm
      exact ⟨by rw [ht]; exact hguard.2, by rw [ht, pyStrip_idem]⟩

/-- C5 (counterexample): with no extra arguments the builder appends
`['--format', 'TabSeparated']` after `['--query', query]` (lines 267-271),
so the final element of the produced argument list is not the query
payload. -/
theorem claim_query_last_counterexample :
    (build_clickhouse_command
      ⟨"my-host.net".toList, 8443, "user".toList, "pass".toList, "testdb".toList,
        "/tmp/ai.yaml".toList, none⟩ "SELECT 1".toList none).getLast? ≠
      some "SELECT 1".toList := by
  decide

/-- C5 (amended): the query payload is the final element of the built
argument list exactly when a non-empty extra-argument list containing
`--format` is supplied; otherwise the list ends with the query payload
followed by `--format` and `TabSeparated`. -/
theorem claim_query_last_amended (cfg : CHConfig) (q : List Char)
    (ea : Option (List (List Char))) :
    ((match ea with
      | none => false
      | some l => !l.isEmpty && l.contains "--format".toList) = true →
      (build_clickhouse_command cfg q ea).getLast? = some q) ∧
    ((match ea with
      | none => false
      | some l => !l.isEmpty && l.contains "--format".toList) = false →
      ∃ pre, build_clickhouse_command cfg q ea =
        pre ++ [q, "--format".toList, "TabSeparated".toList]) := by
  have hfmt : formatArgs ea = (if (match ea with
      | none => false
      | some l => !l.isEmpty && l.contains "--format".toList) = true then
        ([] : List (List Char))
      else ["--format".toList, "TabSeparated".toList]) := by
    unfold formatArgs
    cases ea with
    | none => rfl
    | some l =>
      cases l with
      | nil => rfl
      | cons a as =>
        simp only [extraArgsList]
        by_cases hc : (a :: as).contains "--format".toList = true
        · simp at hc
          rcases hc with hc | hc <;> simp [hc]
        · simp at hc
          simp [hc.1, hc.2]
  constructor
  · intro h
    rw [build_clickhouse_command, hfmt, h, if_pos rfl, List.append_nil]
    rw [show (["--query".toList, q] : List (List Char)) =
      ["--query".toList] ++ [q] from rfl]
    rw [← List.append_assoc]
    exact List.getLast?_concat _
  · intro h
    rw [build_clickhouse_command, hfmt, h]
    rw [if_neg (by simp)]
    refine ⟨"clickhouse-client".toList :: (hostArgs cfg ++ portArgs cfg ++
      userArgs cfg ++ passwordArgs cfg ++ databaseArgs cfg ++ ["--secure".toList] ++
      configArgs cfg ++ extraArgsList ea ++ ["--query".toList]), ?_⟩
    simp [List.append_assoc]

/-- C5 (amended) witness: with extra arguments containing `--format` the
query is last; with no extra arguments the list ends with the query
followed by the default format flags. -/
theorem claim_query_last_amended_witness :
    (build_clickhouse_command
      ⟨"my-host.net".toList, 8443, "user".toList, "pass".toList, "testdb".toList,
        "/tmp/ai.yaml".toList, none⟩ "SELECT 2".toList
      (some ["--format".toList, "CSV".toList])).getLast? =
      some "SELECT 2".toList ∧
    ∃ pre, build_clickhouse_command
      ⟨"my-host.net".toList, 8443, "user".toList, "pass".toList, "testdb".toList,
        "/tmp/ai.yaml".toList, none⟩ "SELECT 2".toList none =
      pre ++ ["SELECT 2".toList, "--format".toList, "TabSeparated".toList] :=
  ⟨(claim_query_last_amended _ _ _).1 (by decide),
   (claim_query_last_amended _ _ _).2 (by decide)⟩

theorem suffix_joinNl_four {a b c d : List Char} : d <:+ joinNl [a, b, c, d] := by
  show d <:+ a ++ '\n' :: (b ++ '\n' :: (c ++ '\n' :: d))
  refine ⟨a ++ '\n' :: (b ++ '\n' :: (c ++ ['\n'])), ?_⟩
  simp

/-- C6 (counterexample): on a single header-only row `format_results`
reports a total of one row (`Всего строк: 1`), not zero — the single-row
branch (lines 592-598) uses `len(rows)` without subtracting a header. -/
theorem claim_format_results_counterexample :
    containsSeq "Всего строк: 0".toList (format_results "name".toList) = false ∧
    containsSeq "Всего строк: 1".toList (format_results "name".toList) = true := by
  decide

/-- C6 (amended): on an empty payload `format_results` returns the literal
no-results message `Нет результатов`; on a payload that trims to a single
line (e.g. a header-only row) its summary reports a total of one row. -/
theorem claim_format_results_amended :
    format_results [] = "Нет результатов".toList ∧
    ∀ s : List Char, s ≠ [] → ('\n' : Char) ∉ pyStrip s →
      "Всего строк: 1".toList <:+ format_results s := by
  refine ⟨rfl, ?_⟩
  intro s hne hnl
  have hl : splitNl (pyStrip s) = [pyStrip s] := splitChar_eq_single hnl
  have hnat : ("Всего строк: ".toList ++ natToStr 1) = "Всего строк: 1".toList := by
    decide
  simp only [format_results, hne, hl, if_false, List.map_cons, List.map_nil,
    List.length_cons, List.length_nil, List.headD_cons, List.tail_cons,
    ite_false, ite_true]
  simp only [List.cons_ne_nil, if_false, gt_iff_lt, Nat.lt_irrefl, if_neg]
  rw [show (0 + 1 : Nat) = 1 from rfl, hnat]
  simp only [List.append_assoc, List.cons_append, List.nil_append,
    List.singleton_append]
  exact suffix_joinNl_four

/-- C6 (amended) witness: the header-only payload `"name"` yields a summary
reporting one row. -/
theorem claim_format_results_amended_witness :
    "Всего строк: 1".toList <:+ format_results "name".toList :=
  claim_format_results_amended.2 "name".toList (by decide) (by decide)

theorem pyReplace_https_on_http {rest : List Char} (h : 'h' ∉ rest) :
    pyReplace "https://".toList [] ("http://".toList ++ rest) =
      "http://".toList ++ rest := by
  have hno : ¬"https://".toList <:+: rest :=
    not_infix_of_mem_skip (by decide) h
  rw [pyReplace, pySplitSeq]
  show List.intercalate [] (splitSeqAux "https://".toList 0 rest
    ['/', '/', ':', 'p', 't', 't', 'h']) = "http://".toList ++ rest
  rw [splitSeqAux_no_occurrence hno]
  show List.intercalate [] [['h', 't', 't', 'p', ':', '/', '/'] ++ rest] =
    "http://".toList ++ rest
  simp [List.intercalate]

/-- C7 (counterexample): host-scheme stripping (line 30) is
case-sensitive: an uppercase `HTTPS://` prefix is not removed, so the
stored host is not `my-host.net`. -/
theorem claim_host_normalization_counterexample :
    normalize_host "HTTPS://my-host.net".toList = "HTTPS://my-host.net".toList ∧
    normalize_host "HTTPS://my-host.net".toList ≠ "my-host.net".toList := by
  decide

/-- C7 (amended): host normalisation removes the exact lowercase
substrings `https://` and `http://` (all occurrences, via `str.replace`);
a leading lowercase scheme is stripped, but the stripping is
case-sensitive, so an uppercase `HTTPS://` prefix is stored unchanged. -/
theorem claim_host_normalization_amended (rest : List Char) (h : 'h' ∉ rest) :
    normalize_host "https://my-host.net".toList = "my-host.net".toList ∧
    normalize_host ("https://".toList ++ rest) = rest ∧
    normalize_host ("http://".toList ++ rest) = rest ∧
    normalize_host ("HTTPS://".toList ++ rest) = "HTTPS://".toList ++ rest := by
  have hnoS : ¬"https://".toList <:+: rest := not_infix_of_mem_skip (by decide) h
  have hnoP : ¬"http://".toList <:+: rest := not_infix_of_mem_skip (by decide) h
  refine ⟨by decide, ?_, ?_, ?_⟩
  · rw [normalize_host, pyReplace_match (by decide), pyReplace_no_occurrence hnoS]
    simp only [List.nil_append]
    exact pyReplace_no_occurrence hnoP
  · rw [normalize_host, pyReplace_https_on_http h, pyReplace_match (by decide),
      pyReplace_no_occurrence hnoP]
    simp
  · have hwhole : 'h' ∉ "HTTPS://".toList ++ rest := by
      intro hm
      rcases List.mem_append.1 hm with hm | hm
      · exact absurd hm (by decide)
      · exact h hm
    rw [normalize_host,
      pyReplace_no_occurrence (not_infix_of_mem_skip (by decide) hwhole),
      pyReplace_no_occurrence (not_infix_of_mem_skip (by decide) hwhole)]

/-- C7 (amended) witness: a lowercase scheme prefix is stripped while the
uppercase variant survives unchanged. -/
theorem claim_host_normalization_amended_witness :
    normalize_host ("https://".toList ++ "my-domain.net".toList) =
      "my-domain.net".toList ∧
    normalize_host ("HTTPS://".toList ++ "my-domain.net".toList) =
      "HTTPS://".toList ++ "my-domain.net".toList :=
  ⟨(claim_host_normalization_amended "my-domain.net".toList (by decide)).2.1,
   (claim_host_normalization_amended "my-domain.net".toList (by decide)).2.2.2⟩

theorem valueAfterFirst_cons {x a : List Char} {rest : List (List Char)} :
    valueAfterFirst x (a :: rest) =
      if a = x then rest.head? else valueAfterFirst x rest :=
  rfl

/-- C8 (counterexample): when the configured port is `0` — a port that
selects NATIVE mode — the builder emits no `--port` flag at all (the
`elif self.ch_port:` guard is falsy), so no value follows a `--port`
flag. -/
theorem claim_native_port_counterexample :
    use_http 0 = false ∧
    valueAfterFirst "--port".toList
      (build_clickhouse_command
        ⟨"my-host.net".toList, 0, "user".toList, "pass".toList, "testdb".toList,
          "/tmp/ai.yaml".toList, none⟩ "SELECT 1".toList none) = none := by
  decide

/-- C8 (amended): when the configured port selects HTTP mode the value
after the first `--port` flag is `CLICKHOUSE_NATIVE_PORT` (default 9440);
when the configured port selects NATIVE mode and is non-zero the value is
the configured port itself; when the configured port is the falsy `0` no
`--port` flag is emitted at all. -/
theorem claim_native_port_amended (cfg : CHConfig) (q : List Char)
    (ea : Option (List (List Char))) (hh : cfg.chHost ≠ "--port".toList) :
    (use_http cfg.chPort = true →
      valueAfterFirst "--port".toList (build_clickhouse_command cfg q ea) =
        some (intToStr (cfg.nativePortEnv.getD 9440))) ∧
    (use_http cfg.chPort = false → cfg.chPort ≠ 0 →
      valueAfterFirst "--port".toList (build_clickhouse_command cfg q ea) =
        some (intToStr cfg.chPort)) ∧
    (use_http cfg.chPort = false → cfg.chPort = 0 → portArgs cfg = []) := by
  have key : ∀ p : List Char, portArgs cfg = ["--port".toList, p] →
      valueAfterFirst "--port".toList (build_clickhouse_command cfg q ea) = some p := by
    intro p hp
    rw [build_clickhouse_command, hp, hostArgs]
    by_cases hch : cfg.chHost ≠ []
    · rw [if_pos hch]
      simp only [List.cons_append, List.nil_append, List.append_assoc]
      rw [valueAfterFirst_cons, if_neg (by decide), valueAfterFirst_cons,
        if_neg (by decide), valueAfterFirst_cons, if_neg hh,
        valueAfterFirst_cons, if_pos rfl]
      rfl
    · rw [if_neg hch]
      simp only [List.cons_append, List.nil_append, List.append_assoc]
      rw [valueAfterFirst_cons, if_neg (by decide), valueAfterFirst_cons,
        if_pos rfl]
      rfl
  refine ⟨?_, ?_, ?_⟩
  · intro hu
    exact key _ (by rw [portArgs, if_pos hu])
  · intro hu h0
    refine key _ ?_
    rw [portArgs, if_neg (by simp [hu]), if_pos h0]
  · intro hu h0
    rw [portArgs, if_neg (by simp [hu]), if_neg (by simp [h0])]

/-- C8 (amended) witness: port 8443 with `CLICKHOUSE_NATIVE_PORT=9441`
emits `--port 9441`; port 9440 emits `--port 9440`; port 0 contributes no
`--port` arguments. -/
theorem claim_native_port_amended_witness :
    valueAfterFirst "--port".toList (build_clickhouse_command
      ⟨"my-host.net".toList, 8443, "user".toList, "pass".toList, "testdb".toList,
        "/tmp/ai.yaml".toList, some 9441⟩ "SELECT 1".toList none) =
      some "9441".toList ∧
    valueAfterFirst "--port".toList (build_clickhouse_command
      ⟨"my-host.net".toList, 9440, "user".toList, "pass".toList, "testdb".toList,
        "/tmp/ai.yaml".toList, none⟩ "SELECT 1".toList none) =
      some "9440".toList ∧
    portArgs ⟨"my-host.net".toList, 0, "user".toList, "pass".toList,
      "testdb".toList, "/tmp/ai.yaml".toList, none⟩ = [] :=
  ⟨((claim_native_port_amended _ "SELECT 1".toList none (by decide)).1
      (by decide)).trans (by decide),
   ((claim_native_port_amended _ "SELECT 1".toList none (by decide)).2.1
      (by decide) (by decide)).trans (by decide),
   (claim_native_port_amended _ "SELECT 1".toList none (by decide)).2.2
      (by decide) (by decide)⟩

/-- C9 (counterexample): construction can fail even when an API key is
present — a non-integer `CLICKHOUSE_PORT` raises `ValueError` from `int()`
(line 31) before the provider branches run, so key presence is not the
only fatal startup condition. -/
theorem claim_provider_selection_counterexample :
    keyTruthy (some "k".toList) = true ∧
    init_generator ⟨some "abc".toList, some "k".toList, none, none⟩ =
      Except.error InitError.invalidPort := by
  decide

/-- C9 (amended): provider selection follows the first-present priority
`OPENROUTER_API_KEY` > `ANTHROPIC_API_KEY` > `OPENAI_API_KEY`;
construction fails iff either `CLICKHOUSE_PORT` is not parsable as an
integer or none of the three keys is truthy. -/
theorem claim_provider_selection_amended (e : Env) :
    ((∃ err, init_generator e = Except.error err) ↔
      pyIntParse (e.clickhousePortEnv.getD "8443".toList) = none ∨
        (keyTruthy e.openrouterKey = false ∧ keyTruthy e.anthropicKey = false ∧
          keyTruthy e.openaiKey = false)) ∧
    ∀ port, pyIntParse (e.clickhousePortEnv.getD "8443".toList) = some port →
      (keyTruthy e.openrouterKey = true →
        init_generator e =
          Except.ok (port, AIProvider.openrouter, e.openrouterKey.getD [])) ∧
      (keyTruthy e.openrouterKey = false → keyTruthy e.anthropicKey = true →
        init_generator e =
          Except.ok (port, AIProvider.anthropic, e.anthropicKey.getD [])) ∧
      (keyTruthy e.openrouterKey = false → keyTruthy e.anthropicKey = false →
        keyTruthy e.openaiKey = true →
        init_generator e =
          Except.ok (port, AIProvider.openai, e.openaiKey.getD [])) := by
  cases hp : pyIntParse (e.clickhousePortEnv.getD "8443".toList) with
  | none =>
    refine ⟨⟨fun _ => Or.inl rfl, fun _ => ⟨InitError.invalidPort, ?_⟩⟩, ?_⟩
    · unfold init_generator
      rw [hp]
    · intro port hport
      exact Option.noConfusion hport
  | some port0 =>
    have hin : init_generator e =
        (if keyTruthy e.openrouterKey = true then
          Except.ok (port0, AIProvider.openrouter, e.openrouterKey.getD [])
        else if keyTruthy e.anthropicKey = true then
          Except.ok (port0, AIProvider.anthropic, e.anthropicKey.getD [])
        else if keyTruthy e.openaiKey = true then
          Except.ok (port0, AIProvider.openai, e.openaiKey.getD [])
        else Except.error InitError.noApiKey) := by
      unfold init_generator
      rw [hp]
    constructor
    · constructor
      · rintro ⟨err, herr⟩
        rw [hin] at herr
        by_cases h1 : keyTruthy e.openrouterKey = true
        · rw [if_pos h1] at herr
          exact Except.noConfusion herr
        · rw [if_neg h1] at herr
          by_cases h2 : keyTruthy e.anthropicKey = true
          · rw [if_pos h2] at herr
            exact Except.noConfusion herr
          · rw [if_neg h2] at herr
            by_cases h3 : keyTruthy e.openaiKey = true
            · rw [if_pos h3] at herr
              exact Except.noConfusion herr
            · exact Or.inr ⟨by simpa using h1, by simpa using h2, by simpa using h3⟩
      · rintro (hperr | ⟨h1, h2, h3⟩)
        · exact Option.noConfusion hperr
        · exact ⟨InitError.noApiKey, by
            rw [hin, if_neg (by simp [h1]), if_neg (by simp [h2]),
              if_neg (by simp [h3])]⟩
    · intro port hport
      have hpe : port0 = port := Option.some.inj hport
      subst hpe
      refine ⟨?_, ?_, ?_⟩
      · intro h1
        rw [hin, if_pos h1]
      · intro h1 h2
        rw [hin, if_neg (by simp [h1]), if_pos h2]
      · intro h1 h2 h3
        rw [hin, if_neg (by simp [h1]), if_neg (by simp [h2]), if_pos h3]

/-- C9 (amended) witness: with only the Anthropic and OpenAI keys set the
Anthropic provider wins; with no keys at all construction fails. -/
theorem claim_provider_selection_amended_witness :
    init_generator ⟨none, none, some "ak".toList, some "ok".toList⟩ =
      Except.ok ((8443 : Int), AIProvider.anthropic, "ak".toList) ∧
    ∃ err, init_generator ⟨none, none, none, none⟩ = Except.error err :=
  ⟨(((claim_provider_selection_amended
      ⟨none, none, some "ak".toList, some "ok".toList⟩).2 8443
      (by decide)).2.1 (by decide) (by decide)).trans (by decide),
   (claim_provider_selection_amended ⟨none, none, none, none⟩).1.2
     (Or.inr (by decide))⟩

/-- C10 witness: a concrete extraction is non-empty and self-trimmed. -/
theorem claim_extract_trimmed_nonempty_witness :
    extract_sql_from_output "  SELECT 2  ".toList = some "SELECT 2".toList ∧
    ("SELECT 2".toList ≠ [] ∧ pyStrip "SELECT 2".toList = "SELECT 2".toList) :=
  ⟨by decide, claim_extract_trimmed_nonempty "  SELECT 2  ".toList
    "SELECT 2".toList (by decide)⟩

end TextToSql
